import Mathlib

/-!
Shallow embedding of the AstraLLM trading bot's core ledger and selection
logic, translated from `src/core/risk_manager.py`, `src/core/market_regime.py`,
`src/core/strategy_selector.py` and `src/bot/trading_bot.py`.

Python floats are modelled as rationals (ℚ), Python ints as ℤ/ℕ, dictionaries
keyed by symbol as association lists (a Python dict has unique keys, so the
well-formed states are those whose key list is duplicate-free), and wall-clock
time (`datetime.now()`) as an explicit rational `now` parameter measured in
days, so that `timedelta(days=1)` is the constant 1.
-/

namespace AstraTrading

/-- `Position` dataclass from `risk_manager.py`.  `side` is the literal string
"LONG" or "SHORT"; the Python code branches on `side == "LONG"` and treats
anything else as SHORT, which the embedding mirrors by comparing with "LONG". -/
structure Position where
  symbol : String
  side : String
  entry_price : ℚ
  quantity : ℚ
  leverage : ℤ
  stop_loss : Option ℚ
  take_profit : Option ℚ
  unrealized_pnl : ℚ
  liquidation_price : Option ℚ
  entry_time : ℚ
  strategy : String
  sl_order_id : Option String
  tp_order_id : Option String
deriving DecidableEq, Repr

/-- `Trade` dataclass from `risk_manager.py`. -/
structure Trade where
  symbol : String
  side : String
  entry_price : ℚ
  exit_price : ℚ
  quantity : ℚ
  leverage : ℤ
  pnl : ℚ
  pnl_percentage : ℚ
  entry_time : ℚ
  exit_time : ℚ
  strategy : String
deriving DecidableEq, Repr

/-- Mutable state of the `RiskManager` class: configuration fields fixed in
`__init__` plus the evolving ledger (`positions`, `trades`, daily stats). -/
structure RiskManager where
  initial_capital : ℚ
  current_capital : ℚ
  max_leverage : ℤ
  risk_per_trade : ℚ
  max_daily_loss : ℚ
  max_open_positions : ℕ
  min_risk_reward : ℚ
  positions : List (String × Position)
  trades : List Trade
  daily_pnl : ℚ
  daily_trades : ℕ
  last_reset : ℚ
deriving DecidableEq, Repr

/-- `RiskManager.__init__`: fresh state with an empty ledger. -/
def mkRiskManager (initial_capital : ℚ) (max_leverage : ℤ) (risk_per_trade : ℚ)
    (max_daily_loss : ℚ) (max_open_positions : ℕ) (min_risk_reward : ℚ)
    (now : ℚ) : RiskManager :=
  { initial_capital := initial_capital
    current_capital := initial_capital
    max_leverage := max_leverage
    risk_per_trade := risk_per_trade
    max_daily_loss := max_daily_loss
    max_open_positions := max_open_positions
    min_risk_reward := min_risk_reward
    positions := []
    trades := []
    daily_pnl := 0
    daily_trades := 0
    last_reset := now }

/-- Dictionary lookup `self.positions[symbol]` / `symbol in self.positions`:
first binding for the key, if any. -/
def lookupPos : List (String × Position) → String → Option Position
  | [], _ => none
  | kv :: rest, k => if kv.1 = k then some kv.2 else lookupPos rest k

/-- Dictionary deletion `del self.positions[symbol]`: drop the first binding
for the key (a Python dict holds at most one). -/
def erasePos : List (String × Position) → String → List (String × Position)
  | [], _ => []
  | kv :: rest, k => if kv.1 = k then rest else kv :: erasePos rest k

/-- Body of `RiskManager.update_position`: recompute `unrealized_pnl` from the
current price; leverage is deliberately not a factor (see source comment). -/
def applyMark (p : Position) (current_price : ℚ) : Position :=
  { p with unrealized_pnl :=
      (if p.side = "LONG" then current_price - p.entry_price
       else p.entry_price - current_price) * p.quantity }

/-- In-place mutation of the dict entry for `symbol` (first binding only). -/
def updatePosList : List (String × Position) → String → ℚ → List (String × Position)
  | [], _, _ => []
  | kv :: rest, k, price =>
      if kv.1 = k then (kv.1, applyMark kv.2 price) :: rest
      else kv :: updatePosList rest k price

/-- `RiskManager.reset_daily_stats`: zero the daily counters once more than a
day has elapsed since `last_reset`. -/
def reset_daily_stats (now : ℚ) (rm : RiskManager) : RiskManager :=
  if now - rm.last_reset > 1 then
    { rm with daily_pnl := 0, daily_trades := 0, last_reset := now }
  else rm

/-- `RiskManager.can_open_position`: the four gates, checked in source order
after the daily reset.  Returns the verdict together with the (possibly
reset) state, since the Python method mutates `self`. -/
def can_open_position (now : ℚ) (symbol : String) (rm : RiskManager) :
    Bool × RiskManager :=
  let rm := reset_daily_stats now rm
  if rm.daily_pnl < -(rm.initial_capital * rm.max_daily_loss) then (false, rm)
  else if rm.max_open_positions ≤ rm.positions.length then (false, rm)
  else if (lookupPos rm.positions symbol).isSome then (false, rm)
  else if rm.current_capital ≤ rm.initial_capital * (1/2) then (false, rm)
  else (true, rm)

/-- `RiskManager.calculate_liquidation_price` (default
`maintenance_margin_rate = 0.005` is passed explicitly as `1/200`). -/
def calculate_liquidation_price (entry_price : ℚ) (leverage : ℤ)
    (side : String) (maintenance_margin_rate : ℚ) : ℚ :=
  if side = "LONG" then
    entry_price * (1 - 1 / (leverage : ℚ) + maintenance_margin_rate)
  else
    entry_price * (1 + 1 / (leverage : ℚ) - maintenance_margin_rate)

/-- `RiskManager.open_position`: gate through `can_open_position`, compute the
liquidation price, reject a stop loss at or beyond it on the loss side, and
otherwise insert the new position and bump `daily_trades`. -/
def open_position (now : ℚ) (symbol side : String) (entry_price quantity : ℚ)
    (leverage : ℤ) (stop_loss : ℚ) (take_profit : Option ℚ) (strategy : String)
    (rm : RiskManager) : Option Position × RiskManager :=
  let gate := can_open_position now symbol rm
  if gate.1 = false then (none, gate.2)
  else
    let liquidation_price := calculate_liquidation_price entry_price leverage side (1/200)
    if (if side = "LONG" then stop_loss ≤ liquidation_price
        else liquidation_price ≤ stop_loss) then (none, gate.2)
    else
      let position : Position :=
        { symbol := symbol
          side := side
          entry_price := entry_price
          quantity := quantity
          leverage := leverage
          stop_loss := some stop_loss
          take_profit := take_profit
          unrealized_pnl := 0
          liquidation_price := some liquidation_price
          entry_time := now
          strategy := strategy
          sl_order_id := none
          tp_order_id := none }
      (some position,
       { gate.2 with positions := (symbol, position) :: gate.2.positions
                     daily_trades := gate.2.daily_trades + 1 })

/-- `RiskManager.close_position`: no-op on an unknown symbol; otherwise use the
exchange-supplied `realized_pnl` verbatim when present, else compute the PnL
from the price move (no leverage factor), then update capital and daily PnL,
record the `Trade` and delete the position. -/
def close_position (now : ℚ) (symbol : String) (exit_price : ℚ)
    (strategy : String) (realized_pnl : Option ℚ) (rm : RiskManager) :
    Option Trade × RiskManager :=
  match lookupPos rm.positions symbol with
  | none => (none, rm)
  | some position =>
    let pr : ℚ × ℚ :=
      match realized_pnl with
      | some pnl => (pnl, pnl / (position.entry_price * position.quantity) * 100)
      | none =>
        let pnl_per_unit :=
          if position.side = "LONG" then exit_price - position.entry_price
          else position.entry_price - exit_price
        (pnl_per_unit * position.quantity, pnl_per_unit / position.entry_price * 100)
    let trade : Trade :=
      { symbol := symbol
        side := position.side
        entry_price := position.entry_price
        exit_price := exit_price
        quantity := position.quantity
        leverage := position.leverage
        pnl := pr.1
        pnl_percentage := pr.2
        entry_time := position.entry_time
        exit_time := now
        strategy := strategy }
    (some trade,
     { rm with current_capital := rm.current_capital + pr.1
               daily_pnl := rm.daily_pnl + pr.1
               trades := rm.trades ++ [trade]
               positions := erasePos rm.positions symbol })

/-- `RiskManager.update_position`: refresh the unrealized PnL of a tracked
position with the current market price; unknown symbols are ignored. -/
def update_position (symbol : String) (current_price : ℚ) (rm : RiskManager) :
    RiskManager :=
  match lookupPos rm.positions symbol with
  | none => rm
  | some _ => { rm with positions := updatePosList rm.positions symbol current_price }

/-- The ledger operations a caller can perform on the `RiskManager`. -/
inductive RMOp where
  | openOp (now : ℚ) (symbol side : String) (entry_price quantity : ℚ)
      (leverage : ℤ) (stop_loss : ℚ) (take_profit : Option ℚ) (strategy : String)
  | updateOp (symbol : String) (current_price : ℚ)
  | closeOp (now : ℚ) (symbol : String) (exit_price : ℚ) (strategy : String)
      (realized_pnl : Option ℚ)
deriving DecidableEq, Repr

/-- State transition of one ledger operation. -/
def applyOp (rm : RiskManager) : RMOp → RiskManager
  | .openOp now symbol side e q lev sl tp strat =>
      (open_position now symbol side e q lev sl tp strat rm).2
  | .updateOp symbol price => update_position symbol price rm
  | .closeOp now symbol exit strat rp => (close_position now symbol exit strat rp rm).2

/-- Run a sequence of ledger operations. -/
def runOps (rm : RiskManager) (ops : List RMOp) : RiskManager :=
  ops.foldl applyOp rm

/-- The position dictionary holds at most one binding per symbol. -/
def keysNodup (rm : RiskManager) : Prop :=
  (rm.positions.map Prod.fst).Nodup

/-- An operation supplies a positive quantity and an in-range leverage when it
is an open (the Python code itself never validates these arguments). -/
def openArgsValid (max_leverage : ℤ) : RMOp → Prop
  | .openOp _ _ _ _ q lev _ _ _ => 0 < q ∧ 0 < lev ∧ lev ≤ max_leverage
  | _ => True

instance : DecidablePred (openArgsValid m) := by
  intro op; cases op <;> simp [openArgsValid] <;> infer_instance

/-! ### Market regime detection (`src/core/market_regime.py`) -/

/-- `MarketRegime` enum. -/
inductive MarketRegime where
  | high_volatility_trending
  | low_volatility_ranging
  | momentum_exhaustion
  | mixed
  | unknown
deriving DecidableEq, Repr

/-- `RegimeSignals` dataclass: the inputs to `detect_regime`. -/
structure RegimeSignals where
  volatility : ℚ
  trend_strength : ℚ
  volume_trend : ℚ
  orderbook_imbalance : ℚ
  funding_rate : ℚ
  funding_trend : ℚ
  rsi : ℚ
  price_momentum : ℚ
  liquidity_score : ℚ
  regime_persistence : ℚ
deriving DecidableEq, Repr

/-- Accumulated score for HIGH_VOLATILITY_TRENDING in `detect_regime`
(detector thresholds: `volatility_high = 0.03`, `trend_strong = 40`). -/
def score_high_vol_trending (s : RegimeSignals) : ℚ :=
  (if s.volatility > 3/100 then 3 else 0)
  + (if s.trend_strength > 40 then 5/2 else 0)
  + (if |s.price_momentum| > 1/2 then 2 else 0)
  + (if s.volume_trend > 3/10 then 3/2 else 0)

/-- Accumulated score for LOW_VOLATILITY_RANGING (`volatility_low = 0.015`). -/
def score_low_vol_ranging (s : RegimeSignals) : ℚ :=
  (if s.volatility < 3/200 then 3 else 0)
  + (if s.trend_strength < 25 then 5/2 else 0)
  + (if |s.price_momentum| < 1/5 then 2 else 0)
  + (if |s.funding_rate| > 1/1000 then 3/2 else 0)
  + (if s.liquidity_score > 7/10 then 1 else 0)

/-- Accumulated score for MOMENTUM_EXHAUSTION (`momentum_extreme_rsi = (25, 75)`). -/
def score_momentum_exhaustion (s : RegimeSignals) : ℚ :=
  (if s.rsi < 25 ∨ s.rsi > 75 then 3 else 0)
  + (if |s.price_momentum| > 2/5 ∧ s.volume_trend < -(1/5) then 5/2 else 0)
  + (if |s.funding_rate| > 1/500 then 2 else 0)
  + (if |s.orderbook_imbalance| > 3/5 then 3/2 else 0)

/-- `MarketRegimeDetector.detect_regime`: score the three active regimes, give
MIXED its fixed 0.5 baseline, pick the maximum (Python's `max` keeps the first
maximal item in dict insertion order), divide by the total score and apply the
persistence boost against the detector's `current_regime`. -/
def detect_regime (signals : RegimeSignals) (current_regime : MarketRegime) :
    MarketRegime × ℚ :=
  let s_hvt := score_high_vol_trending signals
  let s_lvr := score_low_vol_ranging signals
  let s_me := score_momentum_exhaustion signals
  let s_mixed : ℚ := 1/2
  let best :=
    [(MarketRegime.low_volatility_ranging, s_lvr),
     (MarketRegime.momentum_exhaustion, s_me),
     (MarketRegime.mixed, s_mixed)].foldl
      (fun acc c => if c.2 > acc.2 then c else acc)
      (MarketRegime.high_volatility_trending, s_hvt)
  let total_score := s_hvt + s_lvr + s_me + s_mixed
  let confidence := if total_score > 0 then best.2 / total_score else 1/2
  let confidence :=
    if best.1 = current_regime ∧ signals.regime_persistence > 3/5 then
      min 1 (confidence * (11/10))
    else confidence
  (best.1, confidence)

/-- `MarketRegimeDetector.get_recommended_strategies` priority lists. -/
def get_recommended_strategies (regime : MarketRegime) : List String :=
  match regime with
  | .high_volatility_trending =>
      ["Breakout Scalping", "Momentum Reversal", "Support/Resistance Bounce",
       "Order Flow Imbalance"]
  | .low_volatility_ranging =>
      ["Market Making", "VWAP Reversion", "Order Flow Imbalance",
       "Support/Resistance Bounce"]
  | .momentum_exhaustion =>
      ["Momentum Reversal", "VWAP Reversion", "Support/Resistance Bounce",
       "Order Flow Imbalance"]
  | .mixed =>
      ["Order Flow Imbalance", "VWAP Reversion", "Breakout Scalping",
       "Market Making", "Momentum Reversal", "Support/Resistance Bounce"]
  | .unknown =>
      ["Order Flow Imbalance", "VWAP Reversion", "Support/Resistance Bounce"]

/-! ### Strategy selection (`src/core/strategy_selector.py`) -/

/-- One entry of a strategy's `recent_trades` list. -/
structure TradeOutcome where
  pnl : ℚ
  win : Bool
deriving DecidableEq, Repr

/-- One strategy's entry in `StrategySelector.strategy_stats`. -/
structure StrategyStats where
  wins : ℕ
  losses : ℕ
  total_pnl : ℚ
  recent_trades : List TradeOutcome
  win_rate : ℚ
  avg_pnl : ℚ
  enabled : Bool
deriving DecidableEq, Repr

/-- Fresh stats entry created in `StrategySelector.__init__`. -/
def initStrategyStats : StrategyStats :=
  { wins := 0, losses := 0, total_pnl := 0, recent_trades := [],
    win_rate := 0, avg_pnl := 0, enabled := true }

/-- Python list slice `l[-n:]`: the last `n` elements. -/
def lastN {α : Type} (n : ℕ) (l : List α) : List α :=
  l.drop (l.length - n)

/-- `list.index` wrapped as an option: 0-based position of `name`. -/
def indexOfName (name : String) : List String → Option ℕ
  | [] => none
  | x :: rest =>
      if x = name then some 0 else (indexOfName name rest).map (· + 1)

/-- Regime-match component of `calculate_strategy_score`: `1.0 - 0.2·rank`
for a recommended strategy, flat `0.2` otherwise, scaled by the regime
confidence. -/
def regime_score_of (strategy_name : String) (regime : MarketRegime)
    (regime_confidence : ℚ) : ℚ :=
  (match indexOfName strategy_name (get_recommended_strategies regime) with
   | some i => 1 - (i : ℚ) * (1/5)
   | none => 1/5) * regime_confidence

/-- Performance component of `calculate_strategy_score`: a flat 0.5 without
history, else `0.6·recentWinRate + min(recentAvgPnl/100, 0.4)` over the last
10 recorded outcomes. -/
def performance_score_of (stats : StrategyStats) : ℚ :=
  if stats.wins + stats.losses = 0 then 1/2
  else
    let recent := lastN 10 stats.recent_trades
    let recent_wr :=
      if recent.length ≠ 0 then
        ((recent.filter (fun t => t.win)).length : ℚ) / recent.length
      else 1/2
    let recent_pnl :=
      if recent.length ≠ 0 then (recent.map TradeOutcome.pnl).sum / recent.length
      else 0
    recent_wr * (3/5) + min (recent_pnl / 100) (2/5)

/-- `StrategySelector.calculate_strategy_score`: 0 for a disabled strategy,
otherwise the 0.7/0.3 weighted combination clipped into [0,1] by `np.clip`. -/
def calculate_strategy_score (strategy_name : String) (regime : MarketRegime)
    (regime_confidence : ℚ) (stats : StrategyStats) : ℚ :=
  let regime_score := regime_score_of strategy_name regime regime_confidence
  if stats.enabled = false then 0
  else
    let performance_score := performance_score_of stats
    let final_score := regime_score * (7/10) + performance_score * (3/10)
    min (max final_score 0) 1

/-- `StrategySelector.update_strategy_performance` for a registered strategy:
bump the win/loss counters, append to the recent-trade window (capped at 20),
recompute the cumulative win rate and average PnL, and apply the 35%/45%
auto-disable hysteresis once at least 10 trades are recorded. -/
def update_strategy_performance (stats : StrategyStats) (pnl : ℚ) (win : Bool) :
    StrategyStats :=
  let wins := if win then stats.wins + 1 else stats.wins
  let losses := if win then stats.losses else stats.losses + 1
  let total_pnl := stats.total_pnl + pnl
  let recent0 := stats.recent_trades ++ [{ pnl := pnl, win := win }]
  let recent_trades := if 20 < recent0.length then lastN 20 recent0 else recent0
  let total_trades := wins + losses
  let win_rate := if 0 < total_trades then (wins : ℚ) / total_trades else stats.win_rate
  let avg_pnl := if 0 < total_trades then total_pnl / total_trades else stats.avg_pnl
  let enabled :=
    if 10 ≤ total_trades then
      if win_rate < 7/20 then false
      else if win_rate > 9/20 ∧ stats.enabled = false then true
      else stats.enabled
    else stats.enabled
  { wins := wins, losses := losses, total_pnl := total_pnl,
    recent_trades := recent_trades, win_rate := win_rate, avg_pnl := avg_pnl,
    enabled := enabled }

/-- Score-and-pick core of `StrategySelector.select_strategy`, parameterised by
the regime and confidence that `update_regime` returned: score every
registered strategy and return the first maximal `(name, score)` pair
(Python's `max` over dict items keeps the first maximum). -/
def select_strategy (strategies : List (String × StrategyStats))
    (regime : MarketRegime) (regime_confidence : ℚ) : Option (String × ℚ) :=
  let strategy_scores := strategies.map
    (fun p => (p.1, calculate_strategy_score p.1 regime regime_confidence p.2))
  match strategy_scores with
  | [] => none
  | first :: rest =>
      some (rest.foldl (fun acc c => if c.2 > acc.2 then c else acc) first)

/-! ### Position reconciliation (`TradingBot.check_positions`) -/

/-- One entry of the exchange position snapshot returned by
`get_position_info`. -/
structure ExchangePosition where
  symbol : String
  positionAmt : ℚ
  markPrice : ℚ
deriving DecidableEq, Repr

/-- Fill data fetched from `/fapi/v3/userTrades` for a symbol whose position
disappeared from the exchange: the most recent trade's price and the summed
realized PnL.  `none` models an empty trade list or a fetch error, in which
case the bot silently drops the position from tracking. -/
structure FillInfo where
  price : ℚ
  realizedPnl : ℚ
deriving DecidableEq, Repr

/-- Symbols with a non-zero `positionAmt` on the exchange. -/
def active_symbols (aster_positions : List ExchangePosition) : List String :=
  (aster_positions.filter (fun p => p.positionAmt ≠ 0)).map ExchangePosition.symbol

/-- Tracked symbols whose position is gone from the exchange — the ones
`check_positions` will close. -/
def closed_symbols (aster_positions : List ExchangePosition) (rm : RiskManager) :
    List String :=
  (rm.positions.map Prod.fst).filter (fun s => ¬ s ∈ active_symbols aster_positions)

/-- Body of the cleanup loop of `check_positions` for one closed symbol: fetch
the fill data and close with the exchange's realized PnL, or — when the trade
list is empty or the fetch fails (`fills sym = none`) — silently drop the
position from tracking. -/
def close_missing_step (now : ℚ) (fills : String → Option FillInfo)
    (st : RiskManager) (sym : String) : RiskManager :=
  match lookupPos st.positions sym with
  | none => st
  | some position =>
    match fills sym with
    | some f => (close_position now sym f.price position.strategy
        (some f.realizedPnl) st).2
    | none => { st with positions := erasePos st.positions sym }

/-- Body of the mark-price refresh loop of `check_positions` for one exchange
snapshot entry. -/
def refresh_mark_step (st : RiskManager) (p : ExchangePosition) : RiskManager :=
  if p.positionAmt ≠ 0 then update_position p.symbol p.markPrice st else st

/-- State effect of `TradingBot.check_positions`: close (with the exchange's
realized PnL) or drop every tracked position that is no longer active on the
exchange, then refresh the mark price of the remaining active ones.  Order
cancellation and logging have no ledger effect and are not modelled. -/
def check_positions (now : ℚ) (aster_positions : List ExchangePosition)
    (fills : String → Option FillInfo) (rm : RiskManager) : RiskManager :=
  let rm1 := (closed_symbols aster_positions rm).foldl
    (close_missing_step now fills) rm
  aster_positions.foldl refresh_mark_step rm1

/-! ### Concrete states used as inputs of witnesses and counterexamples -/

/-- A ledger state with `initialCapital = 1000`, `maxDailyLossFraction = 0.02`
and the daily PnL sitting exactly at the -20 breaker threshold. -/
def c4state : RiskManager :=
  { initial_capital := 1000, current_capital := 1000, max_leverage := 50,
    risk_per_trade := 1/50, max_daily_loss := 1/50, max_open_positions := 5,
    min_risk_reward := 3/2, positions := [], trades := [], daily_pnl := -20,
    daily_trades := 0, last_reset := 0 }

/-- A freshly initialised risk manager (capital 1000, max leverage 50). -/
def rmInit : RiskManager := mkRiskManager 1000 50 (1/50) (1/10) 5 (3/2) 0

/-- An open request that passes every gate of `open_position` while supplying
a negative quantity. -/
def c2badOp : RMOp := .openOp 0 "BTCUSDT" "LONG" 100 (-1) 10 95 none "s"

/-- A ledger state holding one LONG position, used to exercise
`close_position`. -/
def rmOneLong : RiskManager :=
  (open_position 0 "BTCUSDT" "LONG" 100 2 10 95 (some 110) "s" rmInit).2

/-- Regime signals that trigger none of the scoring conditions of
`detect_regime`. -/
def c5sig : RegimeSignals :=
  { volatility := 1/50, trend_strength := 30, volume_trend := 0,
    orderbook_imbalance := 0, funding_rate := 0, funding_trend := 0,
    rsi := 50, price_momentum := 3/10, liquidity_score := 1/2,
    regime_persistence := 0 }

/-- Enabled stats whose recent PnL is so negative that the raw strategy score
is below zero. -/
def c7stats : StrategyStats :=
  { wins := 0, losses := 1, total_pnl := -1000,
    recent_trades := [{ pnl := -1000, win := false }], win_rate := 0,
    avg_pnl := -1000, enabled := true }

/-- Ten recorded outcomes: three wins then seven losses (win rate 0.30). -/
def c8hist : List (ℚ × Bool) :=
  [(1, true), (1, true), (1, true), (-1, false), (-1, false), (-1, false),
   (-1, false), (-1, false), (-1, false), (-1, false)]

/-- The stats produced by recording `c8hist` against a fresh strategy entry:
ten trades, win rate 0.30, auto-disabled. -/
def c8stats : StrategyStats :=
  c8hist.foldl (fun st pw => update_strategy_performance st pw.1 pw.2) initStrategyStats

/-! ### General lemmas about the ledger operations -/

lemma reset_daily_stats_positions (now : ℚ) (rm : RiskManager) :
    (reset_daily_stats now rm).positions = rm.positions := by
  unfold reset_daily_stats; split <;> rfl

lemma reset_daily_stats_capital (now : ℚ) (rm : RiskManager) :
    (reset_daily_stats now rm).current_capital = rm.current_capital := by
  unfold reset_daily_stats; split <;> rfl

lemma reset_daily_stats_max_leverage (now : ℚ) (rm : RiskManager) :
    (reset_daily_stats now rm).max_leverage = rm.max_leverage := by
  unfold reset_daily_stats; split <;> rfl

lemma can_open_position_snd (now : ℚ) (symbol : String) (rm : RiskManager) :
    (can_open_position now symbol rm).2 = reset_daily_stats now rm := by
  simp only [can_open_position]; split_ifs <;> rfl

lemma can_open_position_true_not_mem (now : ℚ) (symbol : String)
    (rm : RiskManager) (h : (can_open_position now symbol rm).1 = true) :
    lookupPos rm.positions symbol = none := by
  by_contra hmem
  have hsome : (lookupPos rm.positions symbol).isSome := by
    cases hval : lookupPos rm.positions symbol with
    | none => exact absurd hval hmem
    | some p => simp
  simp only [can_open_position, reset_daily_stats_positions] at h
  split_ifs at h

lemma lookupPos_eq_none_iff (ps : List (String × Position)) (k : String) :
    lookupPos ps k = none ↔ k ∉ ps.map Prod.fst := by
  induction ps with
  | nil => simp [lookupPos]
  | cons kv rest ih =>
      by_cases h : kv.1 = k
      · simp [lookupPos, h]
      · have hk : ¬ (k = kv.1) := fun e => h e.symm
        simp only [lookupPos, if_neg h, List.map_cons, List.mem_cons]
        rw [ih]; simp [hk]

lemma erasePos_sublist (ps : List (String × Position)) (k : String) :
    (erasePos ps k).Sublist ps := by
  induction ps with
  | nil => simp [erasePos]
  | cons kv rest ih =>
      by_cases h : kv.1 = k
      · simp only [erasePos, if_pos h]
        exact List.sublist_cons_self kv rest
      · simp only [erasePos, if_neg h]
        exact List.Sublist.cons₂ kv ih

lemma erasePos_keys_nodup (ps : List (String × Position)) (k : String)
    (h : (ps.map Prod.fst).Nodup) : ((erasePos ps k).map Prod.fst).Nodup :=
  ((erasePos_sublist ps k).map Prod.fst).nodup h

lemma erasePos_of_not_mem (ps : List (String × Position)) (k : String)
    (h : k ∉ ps.map Prod.fst) : erasePos ps k = ps := by
  induction ps with
  | nil => rfl
  | cons kv rest ih =>
      simp only [List.map_cons, List.mem_cons, not_or] at h
      have hk : ¬ kv.1 = k := fun e => h.1 e.symm
      simp [erasePos, hk, ih h.2]

lemma lookupPos_erasePos_nodup (ps : List (String × Position)) (k : String)
    (h : (ps.map Prod.fst).Nodup) : lookupPos (erasePos ps k) k = none := by
  induction ps with
  | nil => rfl
  | cons kv rest ih =>
      simp only [List.map_cons, List.nodup_cons] at h
      by_cases hk : kv.1 = k
      · simp only [erasePos, if_pos hk]
        exact (lookupPos_eq_none_iff rest k).2 (hk ▸ h.1)
      · simp only [erasePos, if_neg hk, lookupPos, if_neg hk]
        exact ih h.2

lemma updatePosList_keys (ps : List (String × Position)) (k : String) (pr : ℚ) :
    (updatePosList ps k pr).map Prod.fst = ps.map Prod.fst := by
  induction ps with
  | nil => rfl
  | cons kv rest ih =>
      by_cases h : kv.1 = k <;> simp [updatePosList, h, ih]

lemma updatePosList_mem (ps : List (String × Position)) (k : String) (pr : ℚ)
    (kv : String × Position) (h : kv ∈ updatePosList ps k pr) :
    kv ∈ ps ∨ ∃ kv0 ∈ ps, kv = (kv0.1, applyMark kv0.2 pr) := by
  induction ps with
  | nil => simp [updatePosList] at h
  | cons kv1 rest ih =>
      by_cases h1 : kv1.1 = k
      · simp only [updatePosList, if_pos h1, List.mem_cons] at h
        rcases h with h | h
        · exact Or.inr ⟨kv1, List.mem_cons_self kv1 rest, h⟩
        · exact Or.inl (List.mem_cons_of_mem kv1 h)
      · simp only [updatePosList, if_neg h1, List.mem_cons] at h
        rcases h with h | h
        · exact Or.inl (h ▸ List.mem_cons_self kv1 rest)
        · rcases ih h with h2 | ⟨kv0, hm, he⟩
          · exact Or.inl (List.mem_cons_of_mem kv1 h2)
          · exact Or.inr ⟨kv0, List.mem_cons_of_mem kv1 hm, he⟩

lemma applyMark_quantity (p : Position) (pr : ℚ) :
    (applyMark p pr).quantity = p.quantity := rfl

lemma applyMark_leverage (p : Position) (pr : ℚ) :
    (applyMark p pr).leverage = p.leverage := rfl

/-! ### C6 -/

/-- C6: for every entry price > 0, integer leverage > 0 and maintenance margin
rate, `calculate_liquidation_price` returns `entry·(1 − 1/leverage + mmr)` for
LONG and `entry·(1 + 1/leverage − mmr)` for SHORT; with entry = 100,
leverage = 10, mmr = 0.005 it returns 90.5 for LONG and 109.5 for SHORT. -/
theorem c6_liquidation_price_formula (entry_price : ℚ) (leverage : ℤ)
    (mmr : ℚ) (he : 0 < entry_price) (hl : 0 < leverage) :
    calculate_liquidation_price entry_price leverage "LONG" mmr
        = entry_price * (1 - 1 / (leverage : ℚ) + mmr)
      ∧ calculate_liquidation_price entry_price leverage "SHORT" mmr
        = entry_price * (1 + 1 / (leverage : ℚ) - mmr)
      ∧ calculate_liquidation_price 100 10 "LONG" (1/200) = 181/2
      ∧ calculate_liquidation_price 100 10 "SHORT" (1/200) = 219/2 := by
  refine ⟨rfl, ?_, ?_, ?_⟩
  · simp [calculate_liquidation_price]
  · norm_num [calculate_liquidation_price]
  · norm_num [calculate_liquidation_price, show ¬("SHORT" = "LONG") from by decide]

/-- Witness for C6 at entry = 100, leverage = 10, mmr = 0.005. -/
theorem c6_liquidation_price_formula_witness :
    (0:ℚ) < 100 ∧ (0:ℤ) < 10
      ∧ calculate_liquidation_price 100 10 "LONG" (1/200) = 181/2
      ∧ calculate_liquidation_price 100 10 "SHORT" (1/200) = 219/2 :=
  ⟨by norm_num, by norm_num,
   (c6_liquidation_price_formula 100 10 (1/200) (by norm_num) (by norm_num)).2.2⟩

/-! ### C10 -/

/-- C10: closing a symbol with no open position is a no-op, not an error: it
returns no `Trade` and leaves the whole ledger state unchanged. -/
theorem c10_close_unknown_symbol_noop (now : ℚ) (symbol : String)
    (exit_price : ℚ) (strategy : String) (realized_pnl : Option ℚ)
    (rm : RiskManager) (h : lookupPos rm.positions symbol = none) :
    close_position now symbol exit_price strategy realized_pnl rm = (none, rm) := by
  simp [close_position, h]

/-- Witness for C10 on a fresh ledger with no positions. -/
theorem c10_close_unknown_symbol_noop_witness :
    lookupPos rmInit.positions "BTCUSDT" = none
      ∧ close_position 1 "BTCUSDT" 100 "s" none rmInit = (none, rmInit) :=
  ⟨by simp [rmInit, mkRiskManager, lookupPos],
   c10_close_unknown_symbol_noop 1 "BTCUSDT" 100 "s" none rmInit
     (by simp [rmInit, mkRiskManager, lookupPos])⟩

/-! ### C4 -/

/-- C4 counterexample: with `initialCapital = 1000`, `maxDailyLossFraction =
0.02` and `dailyPnl = -20` (so `dailyPnl ≤ -20`), before the daily reset
boundary, `can_open_position` still returns true — the code compares with a
strict `<`, so the claimed `≤` threshold fails at exactly -20. -/
theorem c4_daily_loss_breaker_counterexample :
    c4state.initial_capital = 1000 ∧ c4state.max_daily_loss = 1/50
      ∧ c4state.daily_pnl ≤ -20 ∧ (0:ℚ) - c4state.last_reset ≤ 1
      ∧ (can_open_position 0 "BTCUSDT" c4state).1 = true := by
  norm_num [can_open_position, c4state, reset_daily_stats, lookupPos]

/-- C4 (amended): with `initialCapital = 1000` and `maxDailyLossFraction =
0.02`, in every state where `dailyPnl` is strictly below -20, and before the
daily reset boundary elapses, `can_open_position` returns false for every
symbol. -/
theorem c4_daily_loss_breaker (now : ℚ) (symbol : String) (rm : RiskManager)
    (hcap : rm.initial_capital = 1000) (hfrac : rm.max_daily_loss = 1/50)
    (hreset : now - rm.last_reset ≤ 1) (hloss : rm.daily_pnl < -20) :
    (can_open_position now symbol rm).1 = false := by
  have hr : reset_daily_stats now rm = rm := by
    unfold reset_daily_stats
    exact if_neg (by linarith)
  have hcond : rm.daily_pnl < -(rm.initial_capital * rm.max_daily_loss) := by
    rw [hcap, hfrac]; norm_num; linarith
  simp only [can_open_position, hr]
  rw [if_pos hcond]

/-- Witness for C4 at a state with `dailyPnl = -21`. -/
theorem c4_daily_loss_breaker_witness :
    ({ c4state with daily_pnl := -21 } : RiskManager).initial_capital = 1000
      ∧ ({ c4state with daily_pnl := -21 } : RiskManager).max_daily_loss = 1/50
      ∧ (0:ℚ) - ({ c4state with daily_pnl := -21 } : RiskManager).last_reset ≤ 1
      ∧ ({ c4state with daily_pnl := -21 } : RiskManager).daily_pnl < -20
      ∧ (can_open_position 0 "BTCUSDT" { c4state with daily_pnl := -21 }).1 = false :=
  ⟨by norm_num [c4state], by norm_num [c4state], by norm_num [c4state],
   by norm_num [c4state],
   c4_daily_loss_breaker 0 "BTCUSDT" { c4state with daily_pnl := -21 }
     (by norm_num [c4state]) (by norm_num [c4state]) (by norm_num [c4state])
     (by norm_num [c4state])⟩

/-! ### C1 -/

/-- C1: a stop loss at or beyond the liquidation price on the loss side makes
`open_position` reject (no position is created, the position map is
unchanged); with all other gates passing, a stop loss strictly inside the
liquidation price makes the open succeed.  LONG rejects iff
`stop_loss ≤ liquidationPrice`, SHORT rejects iff
`stop_loss ≥ liquidationPrice`. -/
theorem c1_stop_loss_liquidation_gate (now : ℚ) (symbol : String)
    (entry_price quantity : ℚ) (leverage : ℤ) (stop_loss : ℚ)
    (take_profit : Option ℚ) (strategy : String) (rm : RiskManager) :
    (stop_loss ≤ calculate_liquidation_price entry_price leverage "LONG" (1/200) →
        (open_position now symbol "LONG" entry_price quantity leverage stop_loss
            take_profit strategy rm).1 = none
        ∧ (open_position now symbol "LONG" entry_price quantity leverage stop_loss
            take_profit strategy rm).2.positions = rm.positions)
    ∧ (calculate_liquidation_price entry_price leverage "LONG" (1/200) < stop_loss →
        (can_open_position now symbol rm).1 = true →
        ((open_position now symbol "LONG" entry_price quantity leverage stop_loss
            take_profit strategy rm).1).isSome = true)
    ∧ (calculate_liquidation_price entry_price leverage "SHORT" (1/200) ≤ stop_loss →
        (open_position now symbol "SHORT" entry_price quantity leverage stop_loss
            take_profit strategy rm).1 = none
        ∧ (open_position now symbol "SHORT" entry_price quantity leverage stop_loss
            take_profit strategy rm).2.positions = rm.positions)
    ∧ (stop_loss < calculate_liquidation_price entry_price leverage "SHORT" (1/200) →
        (can_open_position now symbol rm).1 = true →
        ((open_position now symbol "SHORT" entry_price quantity leverage stop_loss
            take_profit strategy rm).1).isSome = true) := by
  have hpos : (can_open_position now symbol rm).2.positions = rm.positions := by
    rw [can_open_position_snd]; exact reset_daily_stats_positions now rm
  have hshort : ¬(("SHORT":String) = "LONG") := by decide
  refine ⟨fun hsl => ?_, fun hsl hgate => ?_, fun hsl => ?_, fun hsl hgate => ?_⟩
  · simp only [open_position, if_true]
    split_ifs with h1 <;> exact ⟨rfl, hpos⟩
  · have hnle := not_le.2 hsl
    simp only [open_position, if_true]
    split_ifs with h1
    · rw [hgate] at h1; exact absurd h1 (by decide)
    · rfl
  · simp only [open_position, hshort, if_false, if_true]
    split_ifs with h1 <;> exact ⟨rfl, hpos⟩
  · have hnle := not_le.2 hsl
    simp only [open_position, hshort, if_false, if_true]
    split_ifs with h1
    · rw [hgate] at h1; exact absurd h1 (by decide)
    · rfl

/-- Witness for C1 on a fresh ledger: a LONG with stop 90 ≤ liquidation 90.5
is rejected, and a LONG with stop 95 > 90.5 is opened. -/
theorem c1_stop_loss_liquidation_gate_witness :
    (90:ℚ) ≤ calculate_liquidation_price 100 10 "LONG" (1/200)
      ∧ (open_position 0 "BTCUSDT" "LONG" 100 2 10 90 none "s" rmInit).1 = none
      ∧ calculate_liquidation_price 100 10 "LONG" (1/200) < 95
      ∧ (can_open_position 0 "BTCUSDT" rmInit).1 = true
      ∧ ((open_position 0 "BTCUSDT" "LONG" 100 2 10 95 none "s" rmInit).1).isSome
        = true := by
  have h90 : (90:ℚ) ≤ calculate_liquidation_price 100 10 "LONG" (1/200) := by
    norm_num [calculate_liquidation_price]
  have h95 : calculate_liquidation_price 100 10 "LONG" (1/200) < 95 := by
    norm_num [calculate_liquidation_price]
  have hgate : (can_open_position 0 "BTCUSDT" rmInit).1 = true := by
    norm_num [can_open_position, rmInit, mkRiskManager, reset_daily_stats, lookupPos]
  exact ⟨h90,
    (c1_stop_loss_liquidation_gate 0 "BTCUSDT" 100 2 10 90 none "s" rmInit).1 h90 |>.1,
    h95, hgate,
    (c1_stop_loss_liquidation_gate 0 "BTCUSDT" 100 2 10 95 none "s" rmInit).2.1 h95 hgate⟩

/-! ### C3 -/

/-- C3: closing an open position with a supplied `realized_pnl` books exactly
that PnL on the resulting `Trade` (whatever the entry and exit prices are),
adds it to capital and daily PnL, deletes the position and appends exactly one
`Trade`; without a supplied PnL the booked PnL is the per-side price move times
quantity, with no leverage factor. -/
theorem c3_close_position_realized_pnl (now : ℚ) (symbol : String)
    (exit_price : ℚ) (strategy : String) (rm : RiskManager) (p : Position)
    (rp : ℚ) (hp : lookupPos rm.positions symbol = some p)
    (hnodup : (rm.positions.map Prod.fst).Nodup) :
    (∃ t : Trade,
        close_position now symbol exit_price strategy (some rp) rm
          = (some t,
             { rm with current_capital := rm.current_capital + rp
                       daily_pnl := rm.daily_pnl + rp
                       trades := rm.trades ++ [t]
                       positions := erasePos rm.positions symbol })
          ∧ t.pnl = rp)
      ∧ lookupPos (close_position now symbol exit_price strategy (some rp) rm).2.positions
          symbol = none
      ∧ ((close_position now symbol exit_price strategy none rm).1).map Trade.pnl
          = some (if p.side = "LONG" then (exit_price - p.entry_price) * p.quantity
                  else (p.entry_price - exit_price) * p.quantity) := by
  refine ⟨⟨{ symbol := symbol, side := p.side, entry_price := p.entry_price,
             exit_price := exit_price, quantity := p.quantity,
             leverage := p.leverage, pnl := rp,
             pnl_percentage := rp / (p.entry_price * p.quantity) * 100,
             entry_time := p.entry_time, exit_time := now,
             strategy := strategy }, ?_, rfl⟩, ?_, ?_⟩
  · simp only [close_position, hp]
  · simp only [close_position, hp]
    exact lookupPos_erasePos_nodup rm.positions symbol hnodup
  · simp only [close_position, hp, Option.map_some]
    split_ifs with h <;> rfl

/-- The position held by `rmOneLong`. -/
def posBTC : Position :=
  { symbol := "BTCUSDT", side := "LONG", entry_price := 100, quantity := 2,
    leverage := 10, stop_loss := some 95, take_profit := some 110,
    unrealized_pnl := 0, liquidation_price := some (181/2), entry_time := 0,
    strategy := "s", sl_order_id := none, tp_order_id := none }

/-- Witness for C3 on a ledger holding one LONG position (entry 100,
quantity 2): closing with realized PnL 25/2 books exactly 25/2, and closing
without a supplied PnL at exit 104 books (104-100)·2 = 8. -/
theorem c3_close_position_realized_pnl_witness :
    lookupPos rmOneLong.positions "BTCUSDT" = some posBTC
      ∧ (rmOneLong.positions.map Prod.fst).Nodup
      ∧ ((close_position 1 "BTCUSDT" 104 "s" (some (25/2)) rmOneLong).1).map Trade.pnl
          = some (25/2)
      ∧ (close_position 1 "BTCUSDT" 104 "s" (some (25/2)) rmOneLong).2.current_capital
          = rmOneLong.current_capital + 25/2
      ∧ ((close_position 1 "BTCUSDT" 104 "s" none rmOneLong).1).map Trade.pnl
          = some 8 := by
  have hp : lookupPos rmOneLong.positions "BTCUSDT" = some posBTC := by
    norm_num [rmOneLong, rmInit, open_position, can_open_position,
      reset_daily_stats, mkRiskManager, calculate_liquidation_price, lookupPos,
      posBTC]
  have hps : rmOneLong.positions = [("BTCUSDT", posBTC)] := by
    norm_num [rmOneLong, rmInit, open_position, can_open_position,
      reset_daily_stats, mkRiskManager, calculate_liquidation_price, lookupPos,
      posBTC]
  have hnodup : (rmOneLong.positions.map Prod.fst).Nodup := by
    rw [hps]; simp
  obtain ⟨⟨t, ht, hpnl⟩, hlook, hnone⟩ :=
    c3_close_position_realized_pnl 1 "BTCUSDT" 104 "s" rmOneLong posBTC
      (25/2) hp hnodup
  refine ⟨hp, hnodup, ?_, ?_, ?_⟩
  · rw [ht]; simp [hpnl]
  · rw [ht]
  · rw [hnone]; norm_num [posBTC]

/-! ### C2 -/

lemma open_position_positions_cases (now : ℚ) (symbol side : String)
    (entry_price quantity : ℚ) (leverage : ℤ) (stop_loss : ℚ)
    (take_profit : Option ℚ) (strategy : String) (rm : RiskManager) :
    (open_position now symbol side entry_price quantity leverage stop_loss
        take_profit strategy rm).2.positions = rm.positions
    ∨ (∃ pos : Position,
        (open_position now symbol side entry_price quantity leverage stop_loss
            take_profit strategy rm).2.positions = (symbol, pos) :: rm.positions
        ∧ pos.quantity = quantity ∧ pos.leverage = leverage
        ∧ lookupPos rm.positions symbol = none) := by
  have hpos : (can_open_position now symbol rm).2.positions = rm.positions := by
    rw [can_open_position_snd]; exact reset_daily_stats_positions now rm
  have hg : ¬((can_open_position now symbol rm).1 = false) →
      (can_open_position now symbol rm).1 = true := by
    cases (can_open_position now symbol rm).1 <;> simp
  simp only [open_position]
  split_ifs with h1 h2 h3 h4
  · exact Or.inl hpos
  · exact Or.inl hpos
  · exact Or.inr ⟨_, by rw [hpos], rfl, rfl,
      can_open_position_true_not_mem now symbol rm (hg h1)⟩
  · exact Or.inl hpos
  · exact Or.inr ⟨_, by rw [hpos], rfl, rfl,
      can_open_position_true_not_mem now symbol rm (hg h1)⟩

lemma close_position_positions_cases (now : ℚ) (symbol : String)
    (exit_price : ℚ) (strategy : String) (realized_pnl : Option ℚ)
    (rm : RiskManager) :
    (close_position now symbol exit_price strategy realized_pnl rm).2.positions
        = rm.positions
    ∨ (close_position now symbol exit_price strategy realized_pnl rm).2.positions
        = erasePos rm.positions symbol := by
  simp only [close_position]
  cases hlk : lookupPos rm.positions symbol
  · exact Or.inl rfl
  · exact Or.inr rfl

lemma update_position_positions_cases (symbol : String) (price : ℚ)
    (rm : RiskManager) :
    (update_position symbol price rm).positions = rm.positions
    ∨ (update_position symbol price rm).positions
        = updatePosList rm.positions symbol price := by
  simp only [update_position]
  cases hlk : lookupPos rm.positions symbol
  · exact Or.inl rfl
  · exact Or.inr rfl

lemma applyOp_keysNodup (rm : RiskManager) (op : RMOp) (h : keysNodup rm) :
    keysNodup (applyOp rm op) := by
  cases op with
  | openOp now symbol side e q lev sl tp strat =>
      rcases open_position_positions_cases now symbol side e q lev sl tp strat rm
        with hc | ⟨pos, hc, _, _, hnone⟩
      · unfold keysNodup applyOp; rw [hc]; exact h
      · unfold keysNodup applyOp
        rw [hc]
        simp only [List.map_cons, List.nodup_cons]
        exact ⟨(lookupPos_eq_none_iff rm.positions symbol).1 hnone, h⟩
  | updateOp symbol price =>
      rcases update_position_positions_cases symbol price rm with hc | hc
      · unfold keysNodup applyOp; rw [hc]; exact h
      · unfold keysNodup applyOp
        rw [hc, updatePosList_keys]; exact h
  | closeOp now symbol exit strat rp =>
      rcases close_position_positions_cases now symbol exit strat rp rm with hc | hc
      · unfold keysNodup applyOp; rw [hc]; exact h
      · unfold keysNodup applyOp
        rw [hc]; exact erasePos_keys_nodup rm.positions symbol h

lemma runOps_keysNodup (ops : List RMOp) (rm : RiskManager) (h : keysNodup rm) :
    keysNodup (runOps rm ops) := by
  induction ops generalizing rm with
  | nil => exact h
  | cons op rest ih => exact ih (applyOp rm op) (applyOp_keysNodup rm op h)

lemma can_open_position_max_leverage (now : ℚ) (symbol : String)
    (rm : RiskManager) :
    (can_open_position now symbol rm).2.max_leverage = rm.max_leverage := by
  rw [can_open_position_snd]; exact reset_daily_stats_max_leverage now rm

lemma applyOp_max_leverage (rm : RiskManager) (op : RMOp) :
    (applyOp rm op).max_leverage = rm.max_leverage := by
  cases op with
  | openOp now symbol side e q lev sl tp strat =>
      simp only [applyOp, open_position]
      split_ifs <;> simp [can_open_position_max_leverage]
  | updateOp symbol price =>
      simp only [applyOp, update_position]
      cases hlk : lookupPos rm.positions symbol <;> rfl
  | closeOp now symbol exit strat rp =>
      simp only [applyOp, close_position]
      cases hlk : lookupPos rm.positions symbol <;> rfl

lemma applyOp_posValid (mlev : ℤ) (rm : RiskManager) (op : RMOp)
    (h : ∀ kv ∈ rm.positions,
      0 < kv.2.quantity ∧ 0 < kv.2.leverage ∧ kv.2.leverage ≤ mlev)
    (hop : openArgsValid mlev op) :
    ∀ kv ∈ (applyOp rm op).positions,
      0 < kv.2.quantity ∧ 0 < kv.2.leverage ∧ kv.2.leverage ≤ mlev := by
  cases op with
  | openOp now symbol side e q lev sl tp strat =>
      rcases open_position_positions_cases now symbol side e q lev sl tp strat rm
        with hc | ⟨pos, hc, hq, hlev, _⟩
      · unfold applyOp; rw [hc]; exact h
      · unfold applyOp; rw [hc]
        intro kv hkv
        rcases List.mem_cons.1 hkv with hkv | hkv
        · rw [hkv]
          simp only
          rw [hq, hlev]
          exact hop
        · exact h kv hkv
  | updateOp symbol price =>
      rcases update_position_positions_cases symbol price rm with hc | hc
      · unfold applyOp; rw [hc]; exact h
      · unfold applyOp; rw [hc]
        intro kv hkv
        rcases updatePosList_mem rm.positions symbol price kv hkv
          with hkv2 | ⟨kv0, hm, he⟩
        · exact h kv hkv2
        · rw [he]
          simpa only [applyMark_quantity, applyMark_leverage] using h kv0 hm
  | closeOp now symbol exit strat rp =>
      rcases close_position_positions_cases now symbol exit strat rp rm with hc | hc
      · unfold applyOp; rw [hc]; exact h
      · unfold applyOp; rw [hc]
        intro kv hkv
        exact h kv ((erasePos_sublist rm.positions symbol).mem hkv)

lemma runOps_posValid (mlev : ℤ) (ops : List RMOp) (rm : RiskManager)
    (h : ∀ kv ∈ rm.positions,
      0 < kv.2.quantity ∧ 0 < kv.2.leverage ∧ kv.2.leverage ≤ mlev)
    (hops : ∀ op ∈ ops, openArgsValid mlev op) :
    ∀ kv ∈ (runOps rm ops).positions,
      0 < kv.2.quantity ∧ 0 < kv.2.leverage ∧ kv.2.leverage ≤ mlev := by
  induction ops generalizing rm with
  | nil => exact h
  | cons op rest ih =>
      exact ih (applyOp rm op)
        (applyOp_posValid mlev rm op h (hops op (List.mem_cons_self op rest)))
        (fun o ho => hops o (List.mem_cons_of_mem op ho))

lemma can_open_position_false_of_mem (now : ℚ) (symbol : String)
    (rm : RiskManager) (h : (lookupPos rm.positions symbol).isSome = true) :
    (can_open_position now symbol rm).1 = false := by
  simp only [can_open_position, reset_daily_stats_positions]
  split_ifs <;> rfl

lemma open_position_none_of_mem (now : ℚ) (symbol side : String)
    (entry_price quantity : ℚ) (leverage : ℤ) (stop_loss : ℚ)
    (take_profit : Option ℚ) (strategy : String) (rm : RiskManager)
    (h : (lookupPos rm.positions symbol).isSome = true) :
    (open_position now symbol side entry_price quantity leverage stop_loss
      take_profit strategy rm).1 = none := by
  simp only [open_position]
  rw [if_pos (can_open_position_false_of_mem now symbol rm h)]

/-- C2 counterexample: from a fresh risk manager with `max_leverage = 50`,
a single `open` carrying `quantity = -1` (and, in a second run, one carrying
`leverage = 100 > 50`) passes every gate of `open_position`, so the reachable
state holds a position violating `quantity > 0` and `leverage ≤ configuredMax`:
the code never validates those arguments. -/
theorem c2_ledger_invariants_counterexample :
    (lookupPos (runOps rmInit [c2badOp]).positions "BTCUSDT").map Position.quantity
        = some (-1)
      ∧ (lookupPos (runOps rmInit
            [.openOp 0 "BTCUSDT" "LONG" 100 1 100 (499/5) none "s"]).positions
          "BTCUSDT").map Position.leverage = some 100
      ∧ rmInit.max_leverage = 50 := by
  refine ⟨?_, ?_, rfl⟩ <;>
    norm_num [runOps, applyOp, open_position, can_open_position,
      reset_daily_stats, c2badOp, rmInit, mkRiskManager, lookupPos,
      calculate_liquidation_price]

/-- C2 (amended): in every state reachable by open/updateMark/close
operations from a fresh risk manager, the ledger holds at most one position
per symbol (an open for a symbol already held is rejected), and — provided
every open in the sequence supplies `quantity > 0` and `leverage` in
`(0, configuredMax]`, which the code itself never checks — every held
position has `quantity > 0` and `leverage ∈ (0, configuredMax]`. -/
theorem c2_ledger_invariants (c : ℚ) (mlev : ℤ) (rpt mdl : ℚ) (mop : ℕ)
    (mrr t0 : ℚ) (ops : List RMOp) (s : RiskManager)
    (hs : s = runOps (mkRiskManager c mlev rpt mdl mop mrr t0) ops) :
    keysNodup s
      ∧ ((∀ op ∈ ops, openArgsValid mlev op) →
          ∀ kv ∈ s.positions,
            0 < kv.2.quantity ∧ 0 < kv.2.leverage ∧ kv.2.leverage ≤ mlev)
      ∧ (∀ (now : ℚ) (sym side : String) (e q : ℚ) (lev : ℤ) (sl : ℚ)
          (tp : Option ℚ) (strat : String),
          (lookupPos s.positions sym).isSome = true →
          (open_position now sym side e q lev sl tp strat s).1 = none) := by
  subst hs
  refine ⟨?_, ?_, ?_⟩
  · exact runOps_keysNodup ops _ (by simp [keysNodup, mkRiskManager])
  · intro hops
    exact runOps_posValid mlev ops _ (by simp [mkRiskManager]) hops
  · intro now sym side e q lev sl tp strat hmem
    exact open_position_none_of_mem now sym side e q lev sl tp strat _ hmem

/-- Witness for C2: one valid open from the fresh state yields a one-position
ledger with duplicate-free keys, a positive quantity, an in-range leverage,
and a second open on the same symbol rejected. -/
theorem c2_ledger_invariants_witness :
    keysNodup (runOps rmInit [.openOp 0 "BTCUSDT" "LONG" 100 2 10 95 none "s"])
      ∧ (∀ kv ∈ (runOps rmInit
            [.openOp 0 "BTCUSDT" "LONG" 100 2 10 95 none "s"]).positions,
          0 < kv.2.quantity ∧ 0 < kv.2.leverage ∧ kv.2.leverage ≤ 50)
      ∧ (open_position 1 "BTCUSDT" "LONG" 100 2 10 95 none "s"
          (runOps rmInit [.openOp 0 "BTCUSDT" "LONG" 100 2 10 95 none "s"])).1
        = none := by
  obtain ⟨h1, h2, h3⟩ :=
    c2_ledger_invariants 1000 50 (1/50) (1/10) 5 (3/2) 0
      [.openOp 0 "BTCUSDT" "LONG" 100 2 10 95 none "s"]
      (runOps rmInit [.openOp 0 "BTCUSDT" "LONG" 100 2 10 95 none "s"]) rfl
  refine ⟨h1, h2 ?_, h3 1 "BTCUSDT" "LONG" 100 2 10 95 none "s" ?_⟩
  · intro op hop
    rcases List.mem_singleton.1 hop with h
    rw [h]
    exact ⟨by norm_num, by norm_num, by norm_num⟩
  · norm_num [runOps, applyOp, open_position, can_open_position,
      reset_daily_stats, rmInit, mkRiskManager, lookupPos,
      calculate_liquidation_price]

/-! ### C5 -/

lemma score_high_vol_trending_nonneg (s : RegimeSignals) :
    0 ≤ score_high_vol_trending s := by
  unfold score_high_vol_trending; split_ifs <;> norm_num

lemma score_low_vol_ranging_nonneg (s : RegimeSignals) :
    0 ≤ score_low_vol_ranging s := by
  unfold score_low_vol_ranging; split_ifs <;> norm_num

lemma score_momentum_exhaustion_nonneg (s : RegimeSignals) :
    0 ≤ score_momentum_exhaustion s := by
  unfold score_momentum_exhaustion; split_ifs <;> norm_num

lemma regime_fold_spec (a b c : ℚ) :
    (([(MarketRegime.low_volatility_ranging, b),
       (MarketRegime.momentum_exhaustion, c),
       (MarketRegime.mixed, (1:ℚ)/2)].foldl
        (fun acc c => if c.2 > acc.2 then c else acc)
        (MarketRegime.high_volatility_trending, a)).2 = a
      ∨ ([(MarketRegime.low_volatility_ranging, b),
       (MarketRegime.momentum_exhaustion, c),
       (MarketRegime.mixed, (1:ℚ)/2)].foldl
        (fun acc c => if c.2 > acc.2 then c else acc)
        (MarketRegime.high_volatility_trending, a)).2 = b
      ∨ ([(MarketRegime.low_volatility_ranging, b),
       (MarketRegime.momentum_exhaustion, c),
       (MarketRegime.mixed, (1:ℚ)/2)].foldl
        (fun acc c => if c.2 > acc.2 then c else acc)
        (MarketRegime.high_volatility_trending, a)).2 = c
      ∨ ([(MarketRegime.low_volatility_ranging, b),
       (MarketRegime.momentum_exhaustion, c),
       (MarketRegime.mixed, (1:ℚ)/2)].foldl
        (fun acc c => if c.2 > acc.2 then c else acc)
        (MarketRegime.high_volatility_trending, a)).2 = 1/2)
    ∧ 1/2 ≤ ([(MarketRegime.low_volatility_ranging, b),
       (MarketRegime.momentum_exhaustion, c),
       (MarketRegime.mixed, (1:ℚ)/2)].foldl
        (fun acc c => if c.2 > acc.2 then c else acc)
        (MarketRegime.high_volatility_trending, a)).2
    ∧ (([(MarketRegime.low_volatility_ranging, b),
       (MarketRegime.momentum_exhaustion, c),
       (MarketRegime.mixed, (1:ℚ)/2)].foldl
        (fun acc c => if c.2 > acc.2 then c else acc)
        (MarketRegime.high_volatility_trending, a)).1
          = MarketRegime.high_volatility_trending
      ∨ ([(MarketRegime.low_volatility_ranging, b),
       (MarketRegime.momentum_exhaustion, c),
       (MarketRegime.mixed, (1:ℚ)/2)].foldl
        (fun acc c => if c.2 > acc.2 then c else acc)
        (MarketRegime.high_volatility_trending, a)).1
          = MarketRegime.low_volatility_ranging
      ∨ ([(MarketRegime.low_volatility_ranging, b),
       (MarketRegime.momentum_exhaustion, c),
       (MarketRegime.mixed, (1:ℚ)/2)].foldl
        (fun acc c => if c.2 > acc.2 then c else acc)
        (MarketRegime.high_volatility_trending, a)).1
          = MarketRegime.momentum_exhaustion
      ∨ ([(MarketRegime.low_volatility_ranging, b),
       (MarketRegime.momentum_exhaustion, c),
       (MarketRegime.mixed, (1:ℚ)/2)].foldl
        (fun acc c => if c.2 > acc.2 then c else acc)
        (MarketRegime.high_volatility_trending, a)).1
          = MarketRegime.mixed)
    ∧ (a = 0 → b = 0 → c = 0 →
        [(MarketRegime.low_volatility_ranging, b),
         (MarketRegime.momentum_exhaustion, c),
         (MarketRegime.mixed, (1:ℚ)/2)].foldl
          (fun acc c => if c.2 > acc.2 then c else acc)
          (MarketRegime.high_volatility_trending, a)
          = (MarketRegime.mixed, 1/2)) := by
  simp only [List.foldl]
  split_ifs <;>
    refine ⟨by tauto, by simp only at * <;> linarith, by tauto,
      fun ha hb hc => ?_⟩ <;>
    subst ha <;> subst hb <;> subst hc <;>
    first
      | rfl
      | (exfalso; simp only at * <;> linarith)

/-- C5 counterexample: on signals that trigger no scoring condition (all
per-regime scores zero except MIXED's fixed 0.5 baseline), `detect_regime`
returns confidence 0.5/0.5 = 1, not the claimed 0.5. -/
theorem c5_detect_regime_counterexample :
    score_high_vol_trending c5sig = 0
      ∧ score_low_vol_ranging c5sig = 0
      ∧ score_momentum_exhaustion c5sig = 0
      ∧ detect_regime c5sig MarketRegime.unknown = (MarketRegime.mixed, 1) := by
  have habs : |(3:ℚ)/10| = 3/10 := by norm_num
  refine ⟨?_, ?_, ?_, ?_⟩ <;>
    norm_num [detect_regime, c5sig, score_high_vol_trending,
      score_low_vol_ranging, score_momentum_exhaustion, habs]

set_option maxHeartbeats 1000000 in
/-- C5 (amended): `detect_regime` always returns a regime from the fixed
four-plus-UNKNOWN set and a confidence in [0,1]; when no scoring condition
triggers (every per-regime score except MIXED's 0.5 baseline is zero) the
returned confidence is 1 (= 0.5/0.5), not 0.5. -/
theorem c5_detect_regime_range (signals : RegimeSignals) (cur : MarketRegime) :
    ((detect_regime signals cur).1 = MarketRegime.high_volatility_trending
      ∨ (detect_regime signals cur).1 = MarketRegime.low_volatility_ranging
      ∨ (detect_regime signals cur).1 = MarketRegime.momentum_exhaustion
      ∨ (detect_regime signals cur).1 = MarketRegime.mixed
      ∨ (detect_regime signals cur).1 = MarketRegime.unknown)
      ∧ 0 ≤ (detect_regime signals cur).2
      ∧ (detect_regime signals cur).2 ≤ 1
      ∧ (score_high_vol_trending signals = 0 →
          score_low_vol_ranging signals = 0 →
          score_momentum_exhaustion signals = 0 →
          (detect_regime signals cur).2 = 1) := by
  have ha := score_high_vol_trending_nonneg signals
  have hb := score_low_vol_ranging_nonneg signals
  have hc := score_momentum_exhaustion_nonneg signals
  obtain ⟨hval, hhalf, hmem, hzero⟩ :=
    regime_fold_spec (score_high_vol_trending signals)
      (score_low_vol_ranging signals) (score_momentum_exhaustion signals)
  simp only [detect_regime]
  have htot : (0:ℚ) < score_high_vol_trending signals
      + score_low_vol_ranging signals + score_momentum_exhaustion signals
      + 1/2 := by linarith
  rw [if_pos htot]
  have hle : ([(MarketRegime.low_volatility_ranging, score_low_vol_ranging signals),
      (MarketRegime.momentum_exhaustion, score_momentum_exhaustion signals),
      (MarketRegime.mixed, (1:ℚ)/2)].foldl
        (fun acc c => if c.2 > acc.2 then c else acc)
        (MarketRegime.high_volatility_trending,
          score_high_vol_trending signals)).2
      ≤ score_high_vol_trending signals + score_low_vol_ranging signals
        + score_momentum_exhaustion signals + 1/2 := by
    rcases hval with h | h | h | h <;> rw [h] <;> linarith
  have hconf0 : (0:ℚ) ≤ ([(MarketRegime.low_volatility_ranging,
      score_low_vol_ranging signals),
      (MarketRegime.momentum_exhaustion, score_momentum_exhaustion signals),
      (MarketRegime.mixed, (1:ℚ)/2)].foldl
        (fun acc c => if c.2 > acc.2 then c else acc)
        (MarketRegime.high_volatility_trending,
          score_high_vol_trending signals)).2
      / (score_high_vol_trending signals + score_low_vol_ranging signals
        + score_momentum_exhaustion signals + 1/2) :=
    div_nonneg (by linarith) (le_of_lt htot)
  have hconf1 : ([(MarketRegime.low_volatility_ranging,
      score_low_vol_ranging signals),
      (MarketRegime.momentum_exhaustion, score_momentum_exhaustion signals),
      (MarketRegime.mixed, (1:ℚ)/2)].foldl
        (fun acc c => if c.2 > acc.2 then c else acc)
        (MarketRegime.high_volatility_trending,
          score_high_vol_trending signals)).2
      / (score_high_vol_trending signals + score_low_vol_ranging signals
        + score_momentum_exhaustion signals + 1/2) ≤ 1 :=
    (div_le_one htot).2 hle
  refine ⟨?_, ?_, ?_, ?_⟩
  · rcases hmem with h | h | h | h
    · exact Or.inl h
    · exact Or.inr (Or.inl h)
    · exact Or.inr (Or.inr (Or.inl h))
    · exact Or.inr (Or.inr (Or.inr (Or.inl h)))
  · split_ifs
    · exact le_min (by norm_num) (mul_nonneg hconf0 (by norm_num))
    · exact hconf0
  · split_ifs
    · exact min_le_left 1 _
    · exact hconf1
  · intro h1 h2 h3
    rw [hzero h1 h2 h3]
    rw [h1, h2, h3]
    split_ifs <;> norm_num [min_def]

/-- Witness for C5: at the all-quiet signals `c5sig` (no condition fires) the
detector stays inside the regime set with confidence 1 ∈ [0,1]. -/
theorem c5_detect_regime_range_witness :
    score_high_vol_trending c5sig = 0
      ∧ (detect_regime c5sig MarketRegime.unknown).2 = 1
      ∧ 0 ≤ (detect_regime c5sig MarketRegime.unknown).2
      ∧ (detect_regime c5sig MarketRegime.unknown).2 ≤ 1 := by
  have habs : |(3:ℚ)/10| = 3/10 := by norm_num
  have h1 : score_high_vol_trending c5sig = 0 := by
    norm_num [c5sig, score_high_vol_trending, habs]
  have h2 : score_low_vol_ranging c5sig = 0 := by
    norm_num [c5sig, score_low_vol_ranging, habs]
  have h3 : score_momentum_exhaustion c5sig = 0 := by
    norm_num [c5sig, score_momentum_exhaustion, habs]
  obtain ⟨_, hge, hle, hz⟩ := c5_detect_regime_range c5sig MarketRegime.unknown
  exact ⟨h1, hz h1 h2 h3, hge, hle⟩

/-! ### C7 -/

lemma indexOfName_lt_length (name : String) (l : List String) (i : ℕ)
    (h : indexOfName name l = some i) : i < l.length := by
  induction l generalizing i with
  | nil => simp [indexOfName] at h
  | cons x rest ih =>
      simp only [List.length_cons]
      by_cases hx : x = name
      · simp only [indexOfName, if_pos hx, Option.some_inj] at h
        omega
      · simp only [indexOfName, if_neg hx] at h
        cases hrec : indexOfName name rest with
        | none => rw [hrec] at h; simp at h
        | some j =>
            rw [hrec] at h
            simp at h
            have hj := ih j hrec
            omega

lemma get_recommended_strategies_length (regime : MarketRegime) :
    (get_recommended_strategies regime).length ≤ 6 := by
  cases regime <;> simp [get_recommended_strategies]

lemma regime_score_of_bounds (strategy_name : String) (regime : MarketRegime)
    (regime_confidence : ℚ) (h0 : 0 ≤ regime_confidence)
    (h1 : regime_confidence ≤ 1) :
    0 ≤ regime_score_of strategy_name regime regime_confidence
      ∧ regime_score_of strategy_name regime regime_confidence ≤ 1 := by
  unfold regime_score_of
  cases hidx : indexOfName strategy_name (get_recommended_strategies regime) with
  | none =>
      constructor
      · exact mul_nonneg (by norm_num) h0
      · calc (1:ℚ)/5 * regime_confidence ≤ 1 * 1 := by
              apply mul_le_mul (by norm_num) h1 h0 (by norm_num)
          _ = 1 := by norm_num
  | some i =>
      have hlt := indexOfName_lt_length strategy_name
        (get_recommended_strategies regime) i hidx
      have hle6 := get_recommended_strategies_length regime
      have hi5 : (i : ℚ) ≤ 5 := by
        have : i ≤ 5 := by omega
        exact_mod_cast this
      have hfac0 : (0:ℚ) ≤ 1 - (i : ℚ) * (1/5) := by linarith
      have hfac1 : (1:ℚ) - (i : ℚ) * (1/5) ≤ 1 := by
        have : (0:ℚ) ≤ (i : ℚ) := by positivity
        linarith
      constructor
      · exact mul_nonneg hfac0 h0
      · calc (1 - (i:ℚ) * (1/5)) * regime_confidence ≤ 1 * 1 := by
              apply mul_le_mul hfac1 h1 h0 (by norm_num)
          _ = 1 := by norm_num

lemma performance_score_of_le_one (stats : StrategyStats) :
    performance_score_of stats ≤ 1 := by
  simp only [performance_score_of]
  split_ifs with h0 hne
  · norm_num
  · have hlen : (0:ℚ) < ((lastN 10 stats.recent_trades).length : ℚ) := by
      have hpos : 0 < (lastN 10 stats.recent_trades).length :=
        Nat.pos_of_ne_zero hne
      exact_mod_cast hpos
    have hwr : ((((lastN 10 stats.recent_trades).filter
        (fun t => t.win)).length : ℚ))
        / ((lastN 10 stats.recent_trades).length : ℚ) ≤ 1 := by
      rw [div_le_one hlen]
      exact_mod_cast List.length_filter_le (fun t => t.win)
        (lastN 10 stats.recent_trades)
    have hwr0 : (0:ℚ) ≤ ((((lastN 10 stats.recent_trades).filter
        (fun t => t.win)).length : ℚ))
        / ((lastN 10 stats.recent_trades).length : ℚ) :=
      div_nonneg (by positivity) (le_of_lt hlen)
    have hmin : min (((lastN 10 stats.recent_trades).map TradeOutcome.pnl).sum
        / ((lastN 10 stats.recent_trades).length : ℚ) / 100) (2/5) ≤ 2/5 :=
      min_le_right _ _
    linarith
  · have hmin : min ((0:ℚ) / 100) (2/5) ≤ 2/5 := min_le_right _ _
    linarith

/-- C7 counterexample: an enabled strategy with one recorded trade of PnL
-1000 has raw score 0.7·0 + 0.3·(-10) = -3, but `calculate_strategy_score`
clips into [0,1] with `np.clip` and returns 0, so the returned score is not
equal to 0.7·regimeScore + 0.3·performanceScore. -/
theorem c7_strategy_score_counterexample :
    c7stats.enabled = true
      ∧ calculate_strategy_score "Nope" MarketRegime.high_volatility_trending 0
          c7stats = 0
      ∧ regime_score_of "Nope" MarketRegime.high_volatility_trending 0 * (7/10)
          + performance_score_of c7stats * (3/10) = -3 := by
  refine ⟨rfl, ?_, ?_⟩ <;>
    norm_num [calculate_strategy_score, c7stats, regime_score_of,
      performance_score_of, get_recommended_strategies, indexOfName, lastN,
      min_def, max_def]

/-- C7 (amended): for regime confidence in [0,1], the score of a disabled
strategy is exactly 0, and the score of an enabled one is
`max(0.7·regimeScore + 0.3·performanceScore, 0)` — always within [0,1], and
equal to the raw weighted sum exactly when that sum is nonnegative (the raw
sum never exceeds 1, but it can be negative and is then clipped to 0). -/
theorem c7_strategy_score_formula (strategy_name : String)
    (regime : MarketRegime) (regime_confidence : ℚ) (stats : StrategyStats)
    (h0 : 0 ≤ regime_confidence) (h1 : regime_confidence ≤ 1) :
    (stats.enabled = false →
        calculate_strategy_score strategy_name regime regime_confidence stats = 0)
      ∧ 0 ≤ calculate_strategy_score strategy_name regime regime_confidence stats
      ∧ calculate_strategy_score strategy_name regime regime_confidence stats ≤ 1
      ∧ (stats.enabled = true →
          calculate_strategy_score strategy_name regime regime_confidence stats
            = max (regime_score_of strategy_name regime regime_confidence * (7/10)
                + performance_score_of stats * (3/10)) 0)
      ∧ (stats.enabled = true →
          0 ≤ regime_score_of strategy_name regime regime_confidence * (7/10)
              + performance_score_of stats * (3/10) →
          calculate_strategy_score strategy_name regime regime_confidence stats
            = regime_score_of strategy_name regime regime_confidence * (7/10)
              + performance_score_of stats * (3/10)) := by
  obtain ⟨hrs0, hrs1⟩ :=
    regime_score_of_bounds strategy_name regime regime_confidence h0 h1
  have hps1 := performance_score_of_le_one stats
  have hraw1 : regime_score_of strategy_name regime regime_confidence * (7/10)
      + performance_score_of stats * (3/10) ≤ 1 := by nlinarith
  have hmax1 : max (regime_score_of strategy_name regime regime_confidence * (7/10)
      + performance_score_of stats * (3/10)) 0 ≤ 1 :=
    max_le hraw1 (by norm_num)
  cases hen : stats.enabled with
  | false =>
      refine ⟨fun _ => ?_, ?_, ?_, fun h => absurd h (by decide),
        fun h _ => absurd h (by decide)⟩ <;>
        simp [calculate_strategy_score, hen]
  | true =>
      have hunf : calculate_strategy_score strategy_name regime
          regime_confidence stats
          = min (max (regime_score_of strategy_name regime regime_confidence * (7/10)
              + performance_score_of stats * (3/10)) 0) 1 := by
        simp [calculate_strategy_score, hen]
      refine ⟨fun h => absurd h (by decide), ?_, ?_, fun _ => ?_, fun _ hraw0 => ?_⟩
      · rw [hunf]
        exact le_min (le_max_right _ 0) (by norm_num)
      · rw [hunf]
        exact min_le_right _ 1
      · rw [hunf]
        exact min_eq_left hmax1
      · rw [hunf, min_eq_left hmax1]
        exact max_eq_left hraw0

/-- Witness for C7 at confidence 0 with the loss-heavy stats `c7stats` and its
disabled variant. -/
theorem c7_strategy_score_formula_witness :
    (0:ℚ) ≤ 0 ∧ (0:ℚ) ≤ 1
      ∧ calculate_strategy_score "Nope" MarketRegime.high_volatility_trending 0
          { c7stats with enabled := false } = 0
      ∧ 0 ≤ calculate_strategy_score "Nope" MarketRegime.high_volatility_trending 0
          c7stats
      ∧ calculate_strategy_score "Nope" MarketRegime.high_volatility_trending 0
          c7stats ≤ 1
      ∧ calculate_strategy_score "Nope" MarketRegime.high_volatility_trending 0
          c7stats
        = max (regime_score_of "Nope" MarketRegime.high_volatility_trending 0 * (7/10)
            + performance_score_of c7stats * (3/10)) 0 :=
  ⟨le_refl 0, by norm_num,
   (c7_strategy_score_formula "Nope" MarketRegime.high_volatility_trending 0
     { c7stats with enabled := false } (le_refl 0) (by norm_num)).1 rfl,
   (c7_strategy_score_formula "Nope" MarketRegime.high_volatility_trending 0
     c7stats (le_refl 0) (by norm_num)).2.1,
   (c7_strategy_score_formula "Nope" MarketRegime.high_volatility_trending 0
     c7stats (le_refl 0) (by norm_num)).2.2.1,
   (c7_strategy_score_formula "Nope" MarketRegime.high_volatility_trending 0
     c7stats (le_refl 0) (by norm_num)).2.2.2.1 rfl⟩

/-! ### C8 -/

lemma select_fold_mem : ∀ (l : List (String × ℚ)) (a : String × ℚ),
    l.foldl (fun acc c => if c.2 > acc.2 then c else acc) a ∈ a :: l
  | [], a => by simp [List.foldl]
  | x :: rest, a => by
      simp only [List.foldl]
      rcases List.mem_cons.1 (select_fold_mem rest (if x.2 > a.2 then x else a))
        with h | h
      · rw [h]
        split_ifs
        · exact List.mem_cons_of_mem a (List.mem_cons_self x rest)
        · exact List.mem_cons_self a (x :: rest)
      · exact List.mem_cons_of_mem a (List.mem_cons_of_mem x h)

lemma select_fold_ge : ∀ (l : List (String × ℚ)) (a : String × ℚ),
    ∀ x ∈ a :: l,
      x.2 ≤ (l.foldl (fun acc c => if c.2 > acc.2 then c else acc) a).2
  | [], a => by
      intro x hx
      rcases List.mem_singleton.1 hx with rfl
      exact le_refl _
  | y :: rest, a => by
      intro x hx
      simp only [List.foldl]
      have hstep : a.2 ≤ (if y.2 > a.2 then y else a).2
          ∧ y.2 ≤ (if y.2 > a.2 then y else a).2 := by
        split_ifs with hc
        · exact ⟨le_of_lt hc, le_refl _⟩
        · exact ⟨le_refl _, not_lt.1 hc⟩
      rcases List.mem_cons.1 hx with rfl | hx2
      · exact le_trans hstep.1
          (select_fold_ge rest (if y.2 > x.2 then y else x) _
            (List.mem_cons_self _ rest))
      · rcases List.mem_cons.1 hx2 with rfl | hx3
        · exact le_trans hstep.2
            (select_fold_ge rest (if x.2 > a.2 then x else a) _
              (List.mem_cons_self _ rest))
        · exact select_fold_ge rest (if y.2 > a.2 then y else a) x
            (List.mem_cons_of_mem _ hx3)

lemma stats_unique_of_nodup_keys (l : List (String × StrategyStats))
    (h : (l.map Prod.fst).Nodup) (a : String) (b c : StrategyStats)
    (hb : (a, b) ∈ l) (hc : (a, c) ∈ l) : b = c := by
  induction l with
  | nil => simp at hb
  | cons kv rest ih =>
      simp only [List.map_cons, List.nodup_cons] at h
      rcases List.mem_cons.1 hb with hb1 | hb1 <;>
        rcases List.mem_cons.1 hc with hc1 | hc1
      · have h12 : (a, b) = (a, c) := hb1.trans hc1.symm
        exact congrArg Prod.snd h12
      · exfalso
        have hmem : a ∈ rest.map Prod.fst := List.mem_map_of_mem Prod.fst hc1
        have ha : kv.1 = a := by rw [← hb1]
        have h1 := h.1
        rw [ha] at h1
        exact h1 hmem
      · exfalso
        have hmem : a ∈ rest.map Prod.fst := List.mem_map_of_mem Prod.fst hb1
        have ha : kv.1 = a := by rw [← hc1]
        have h1 := h.1
        rw [ha] at h1
        exact h1 hmem
      · exact ih h.2 hb1 hc1

lemma update_total_eq (stats : StrategyStats) (pnl : ℚ) (win : Bool) :
    (if win = true then stats.wins + 1 else stats.wins)
      + (if win = true then stats.losses else stats.losses + 1)
      = stats.wins + stats.losses + 1 := by
  split_ifs <;> omega

lemma update_win_rate (stats : StrategyStats) (pnl : ℚ) (win : Bool) :
    (update_strategy_performance stats pnl win).win_rate
      = (((if win = true then stats.wins + 1 else stats.wins) : ℕ) : ℚ)
        / (((stats.wins + stats.losses + 1) : ℕ) : ℚ) := by
  simp only [update_strategy_performance, update_total_eq stats pnl win,
    (by omega : 0 < stats.wins + stats.losses + 1), if_true]

lemma update_enabled (stats : StrategyStats) (pnl : ℚ) (win : Bool)
    (h10 : 10 ≤ stats.wins + stats.losses + 1) :
    (update_strategy_performance stats pnl win).enabled
      = (if (update_strategy_performance stats pnl win).win_rate < 7/20 then false
         else if (update_strategy_performance stats pnl win).win_rate > 9/20
             ∧ stats.enabled = false then true
         else stats.enabled) := by
  simp only [update_strategy_performance, update_total_eq stats pnl win,
    h10, if_true]

/-- C8 counterexample: after ten recorded outcomes at win rate 0.30 the
strategy is auto-disabled and scores 0, yet `select_strategy` still returns
it when it is the only registered strategy: Python's `max` picks the best of
the scores list even when every score is 0, so "select never returns it" is
false. -/
theorem c8_auto_disable_counterexample :
    c8stats.wins + c8stats.losses = 10
      ∧ c8stats.win_rate = 3/10
      ∧ c8stats.enabled = false
      ∧ select_strategy [("A", c8stats)] MarketRegime.mixed 1 = some ("A", 0) := by
  refine ⟨?_, ?_, ?_, ?_⟩ <;>
    norm_num [select_strategy, calculate_strategy_score, c8stats, c8hist,
      initStrategyStats, update_strategy_performance, lastN]

/-- C8 (amended): once a strategy has at least 10 recorded outcomes, an
outcome leaving its win rate below 0.35 disables it; a disabled strategy is
re-enabled by an outcome exactly when the new win rate exceeds 0.45 (so it
stays disabled in between); a disabled strategy always scores 0; and
`select_strategy` never returns the disabled strategy as long as some
registered strategy has a positive score (with only zero-score strategies
available, Python's `max` can still return the disabled one). -/
theorem c8_auto_disable_hysteresis :
    (∀ (stats : StrategyStats) (pnl : ℚ) (win : Bool),
        10 ≤ stats.wins + stats.losses →
        (update_strategy_performance stats pnl win).win_rate < 7/20 →
        (update_strategy_performance stats pnl win).enabled = false)
    ∧ (∀ (stats : StrategyStats) (pnl : ℚ) (win : Bool),
        stats.enabled = false → 10 ≤ stats.wins + stats.losses →
        ((update_strategy_performance stats pnl win).enabled = true
          ↔ 9/20 < (update_strategy_performance stats pnl win).win_rate))
    ∧ (∀ (name : String) (regime : MarketRegime) (conf : ℚ)
        (stats : StrategyStats), stats.enabled = false →
        calculate_strategy_score name regime conf stats = 0)
    ∧ (∀ (strategies : List (String × StrategyStats)) (regime : MarketRegime)
        (conf : ℚ) (name m : String) (st stm : StrategyStats) (r : String × ℚ),
        (name, st) ∈ strategies → st.enabled = false →
        (m, stm) ∈ strategies →
        0 < calculate_strategy_score m regime conf stm →
        (strategies.map Prod.fst).Nodup →
        select_strategy strategies regime conf = some r →
        r.1 ≠ name) := by
  refine ⟨?_, ?_, ?_, ?_⟩
  · intro stats pnl win h10 hwr
    rw [update_enabled stats pnl win (by omega)]
    rw [if_pos hwr]
  · intro stats pnl win hen h10
    rw [update_enabled stats pnl win (by omega), hen]
    split_ifs with ha hb
    · exact iff_of_false (by simp) (by intro h; linarith)
    · exact iff_of_true rfl hb.1
    · exact iff_of_false (by simp) (fun h => hb ⟨h, rfl⟩)
  · intro name regime conf stats h
    simp [calculate_strategy_score, h]
  · intro strategies regime conf name m st stm r hmem hdis hmmem hpos hnodup hsel
    cases strategies with
    | nil => simp at hmem
    | cons p0 prest =>
        simp only [select_strategy, List.map_cons, Option.some_inj] at hsel
        have hrmem : r ∈ (p0 :: prest).map
            (fun p => (p.1, calculate_strategy_score p.1 regime conf p.2)) := by
          rw [← hsel, List.map_cons]
          exact select_fold_mem _ _
        have hrge : calculate_strategy_score m regime conf stm ≤ r.2 := by
          rw [← hsel]
          exact select_fold_ge
            (prest.map (fun p => (p.1, calculate_strategy_score p.1 regime conf p.2)))
            (p0.1, calculate_strategy_score p0.1 regime conf p0.2)
            (m, calculate_strategy_score m regime conf stm)
            (by
              rcases List.mem_cons.1 hmmem with h | h
              · exact List.mem_cons.2 (Or.inl (by rw [← h]))
              · exact List.mem_cons_of_mem _ (List.mem_map_of_mem
                  (fun p => (p.1, calculate_strategy_score p.1 regime conf p.2)) h))
        intro hname
        obtain ⟨p, hpmem, hpr⟩ := List.mem_map.1 hrmem
        have hkey : p.1 = name := by rw [← hname, ← hpr]
        have hmem2 : (name, p.2) ∈ p0 :: prest := by
          rw [← hkey]
          exact hpmem
        have hsame : p.2 = st :=
          stats_unique_of_nodup_keys (p0 :: prest) hnodup name p.2 st hmem2 hmem
        have hzero : r.2 = 0 := by
          rw [← hpr]
          simp only
          rw [hkey, hsame]
          simp [calculate_strategy_score, hdis]
        linarith [lt_of_lt_of_le hpos hrge, hzero]

/-- A disabled stats entry at win rate 5/10, one win away from re-enabling. -/
def c8reenable : StrategyStats :=
  { wins := 5, losses := 5, total_pnl := 0, recent_trades := [],
    win_rate := 1/2, avg_pnl := 0, enabled := false }

/-- Witness for C8: recording an 11th outcome keeps the 3/11 win-rate strategy
disabled, a win taking a disabled strategy to win rate 6/11 > 0.45 re-enables
it, the disabled `c8stats` scores 0, and with an enabled fresh strategy "B"
(positive score) registered next to the disabled "A", `select_strategy` does
not return "A". -/
theorem c8_auto_disable_hysteresis_witness :
    (update_strategy_performance c8stats (-1) false).enabled = false
      ∧ (update_strategy_performance c8reenable 1 true).enabled = true
      ∧ calculate_strategy_score "A" MarketRegime.mixed 1 c8stats = 0
      ∧ select_strategy [("A", c8stats), ("B", initStrategyStats)]
          MarketRegime.mixed 1 = some ("B", 29/100)
      ∧ ("B" : String) ≠ "A" := by
  have hstats : c8stats.wins = 3 ∧ c8stats.losses = 7 ∧ c8stats.enabled = false := by
    refine ⟨?_, ?_, ?_⟩ <;>
      norm_num [c8stats, c8hist, initStrategyStats,
        update_strategy_performance, lastN]
  have hsel : select_strategy [("A", c8stats), ("B", initStrategyStats)]
      MarketRegime.mixed 1 = some ("B", 29/100) := by
    norm_num [select_strategy, calculate_strategy_score, c8stats, c8hist,
      initStrategyStats, update_strategy_performance, lastN, regime_score_of,
      performance_score_of, get_recommended_strategies, indexOfName, min_def,
      max_def,
      (by decide : ¬("Order Flow Imbalance" = "B")),
      (by decide : ¬("VWAP Reversion" = "B")),
      (by decide : ¬("Breakout Scalping" = "B")),
      (by decide : ¬("Market Making" = "B")),
      (by decide : ¬("Momentum Reversal" = "B")),
      (by decide : ¬("Support/Resistance Bounce" = "B"))]
  refine ⟨?_, ?_, ?_, hsel, ?_⟩
  · apply (c8_auto_disable_hysteresis).1 c8stats (-1) false
    · have h1 := hstats.1
      have h2 := hstats.2.1
      omega
    · norm_num [c8stats, c8hist, initStrategyStats,
        update_strategy_performance, lastN]
  · apply ((c8_auto_disable_hysteresis).2.1 c8reenable 1 true rfl
      (by norm_num [c8reenable])).2
    norm_num [c8reenable, update_strategy_performance, lastN]
  · exact (c8_auto_disable_hysteresis).2.2.1 "A" MarketRegime.mixed 1 c8stats
      hstats.2.2
  · exact (c8_auto_disable_hysteresis).2.2.2
      [("A", c8stats), ("B", initStrategyStats)] MarketRegime.mixed 1
      "A" "B" c8stats initStrategyStats ("B", 29/100)
      (List.mem_cons_self _ _) hstats.2.2
      (List.mem_cons_of_mem _ (List.mem_cons_self _ _))
      (by norm_num [calculate_strategy_score, initStrategyStats,
        regime_score_of, performance_score_of, get_recommended_strategies,
        indexOfName, min_def, max_def,
        (by decide : ¬("Order Flow Imbalance" = "B")),
        (by decide : ¬("VWAP Reversion" = "B")),
        (by decide : ¬("Breakout Scalping" = "B")),
        (by decide : ¬("Market Making" = "B")),
        (by decide : ¬("Momentum Reversal" = "B")),
        (by decide : ¬("Support/Resistance Bounce" = "B"))])
      (by simp) hsel

/-! ### C9 -/

lemma close_missing_step_positions (now : ℚ) (fills : String → Option FillInfo)
    (st : RiskManager) (sym : String) :
    (close_missing_step now fills st sym).positions = erasePos st.positions sym := by
  unfold close_missing_step
  cases hlk : lookupPos st.positions sym with
  | none =>
      exact (erasePos_of_not_mem st.positions sym
        ((lookupPos_eq_none_iff st.positions sym).1 hlk)).symm
  | some position =>
      cases fills sym with
      | none => rfl
      | some f => simp only [close_position, hlk]

lemma close_fold_positions (now : ℚ) (fills : String → Option FillInfo) :
    ∀ (syms : List String) (st : RiskManager),
      ((syms.foldl (close_missing_step now fills) st).positions)
        = syms.foldl erasePos st.positions
  | [], st => rfl
  | sym :: rest, st => by
      simp only [List.foldl]
      rw [close_fold_positions now fills rest (close_missing_step now fills st sym),
        close_missing_step_positions now fills st sym]

lemma eraseAll_cons_of_ne (kv : String × Position) :
    ∀ (syms : List String) (ps : List (String × Position)),
      (∀ s ∈ syms, ¬(kv.1 = s)) →
      syms.foldl erasePos (kv :: ps) = kv :: syms.foldl erasePos ps
  | [], ps, _ => rfl
  | sym :: rest, ps, h => by
      simp only [List.foldl]
      rw [show erasePos (kv :: ps) sym = kv :: erasePos ps sym from by
        simp [erasePos, h sym (List.mem_cons_self sym rest)]]
      exact eraseAll_cons_of_ne kv rest (erasePos ps sym)
        (fun s hs => h s (List.mem_cons_of_mem sym hs))

lemma eraseAll_filter (f : String → Bool) :
    ∀ (ps : List (String × Position)), (ps.map Prod.fst).Nodup →
      ((ps.map Prod.fst).filter f).foldl erasePos ps
        = ps.filter (fun kv => ! f kv.1)
  | [], _ => rfl
  | kv :: rest, hnd => by
      simp only [List.map_cons, List.nodup_cons] at hnd
      simp only [List.map_cons, List.filter]
      cases hf : f kv.1 with
      | true =>
          simp only [List.foldl]
          rw [show erasePos (kv :: rest) kv.1 = rest from by simp [erasePos]]
          rw [eraseAll_filter f rest hnd.2]
          simp [hf]
      | false =>
          rw [eraseAll_cons_of_ne kv ((rest.map Prod.fst).filter f) rest
            (fun s hs => by
              intro he
              apply hnd.1
              rw [he]
              exact (List.mem_filter.1 hs).1)]
          rw [eraseAll_filter f rest hnd.2]
          simp [hf]

lemma update_position_fields (symbol : String) (price : ℚ) (rm : RiskManager) :
    (update_position symbol price rm).trades = rm.trades
      ∧ (update_position symbol price rm).current_capital = rm.current_capital
      ∧ (update_position symbol price rm).daily_pnl = rm.daily_pnl
      ∧ (update_position symbol price rm).positions.map Prod.fst
          = rm.positions.map Prod.fst := by
  unfold update_position
  cases hlk : lookupPos rm.positions symbol with
  | none => exact ⟨rfl, rfl, rfl, rfl⟩
  | some p => exact ⟨rfl, rfl, rfl, updatePosList_keys rm.positions symbol price⟩

lemma refresh_mark_step_fields (st : RiskManager) (p : ExchangePosition) :
    (refresh_mark_step st p).trades = st.trades
      ∧ (refresh_mark_step st p).current_capital = st.current_capital
      ∧ (refresh_mark_step st p).daily_pnl = st.daily_pnl
      ∧ (refresh_mark_step st p).positions.map Prod.fst
          = st.positions.map Prod.fst := by
  unfold refresh_mark_step
  split_ifs
  · exact update_position_fields p.symbol p.markPrice st
  · exact ⟨rfl, rfl, rfl, rfl⟩

lemma refresh_fold_fields :
    ∀ (l : List ExchangePosition) (st : RiskManager),
      (l.foldl refresh_mark_step st).trades = st.trades
        ∧ (l.foldl refresh_mark_step st).current_capital = st.current_capital
        ∧ (l.foldl refresh_mark_step st).daily_pnl = st.daily_pnl
        ∧ (l.foldl refresh_mark_step st).positions.map Prod.fst
            = st.positions.map Prod.fst
  | [], st => ⟨rfl, rfl, rfl, rfl⟩
  | p :: rest, st => by
      simp only [List.foldl]
      obtain ⟨h1, h2, h3, h4⟩ := refresh_fold_fields rest (refresh_mark_step st p)
      obtain ⟨g1, g2, g3, g4⟩ := refresh_mark_step_fields st p
      exact ⟨h1.trans g1, h2.trans g2, h3.trans g3, h4.trans g4⟩

lemma filter_keys_filter_nil (f : String → Bool) :
    ∀ ps : List (String × Position),
      (((ps.filter (fun kv => ! f kv.1)).map Prod.fst).filter f) = []
  | [] => rfl
  | kv :: rest => by
      cases hf : f kv.1 with
      | true =>
          simp only [List.filter, hf, Bool.not_true]
          exact filter_keys_filter_nil f rest
      | false =>
          simp only [List.filter, hf, Bool.not_false, List.map_cons]
          exact filter_keys_filter_nil f rest

/-- C9: reconcile (`check_positions`) is idempotent: starting from a
well-formed ledger (duplicate-free symbol keys, as a Python dict guarantees),
a second run with the same exchange snapshot and the same fill data finds no
further symbols to close, appends no Trade, and leaves capital and daily PnL
exactly as the first run left them. -/
theorem c9_check_positions_idempotent (now now2 : ℚ)
    (aster : List ExchangePosition) (fills : String → Option FillInfo)
    (rm : RiskManager) (hnodup : (rm.positions.map Prod.fst).Nodup) :
    closed_symbols aster (check_positions now aster fills rm) = []
      ∧ (check_positions now2 aster fills
          (check_positions now aster fills rm)).trades
        = (check_positions now aster fills rm).trades
      ∧ (check_positions now2 aster fills
          (check_positions now aster fills rm)).current_capital
        = (check_positions now aster fills rm).current_capital
      ∧ (check_positions now2 aster fills
          (check_positions now aster fills rm)).daily_pnl
        = (check_positions now aster fills rm).daily_pnl := by
  have hkeys1 : (check_positions now aster fills rm).positions.map Prod.fst
      = (rm.positions.filter
          (fun kv => ! (decide (¬ kv.1 ∈ active_symbols aster)))).map Prod.fst := by
    simp only [check_positions]
    rw [(refresh_fold_fields aster _).2.2.2]
    rw [close_fold_positions now fills (closed_symbols aster rm) rm]
    unfold closed_symbols
    rw [eraseAll_filter (fun s => decide (¬ s ∈ active_symbols aster))
      rm.positions hnodup]
  have hclosed : closed_symbols aster (check_positions now aster fills rm) = [] := by
    unfold closed_symbols
    rw [hkeys1]
    exact filter_keys_filter_nil (fun s => decide (¬ s ∈ active_symbols aster))
      rm.positions
  refine ⟨hclosed, ?_, ?_, ?_⟩
  · conv_lhs => rw [check_positions, hclosed]
    simp only [List.foldl_nil]
    exact (refresh_fold_fields aster (check_positions now aster fills rm)).1
  · conv_lhs => rw [check_positions, hclosed]
    simp only [List.foldl_nil]
    exact (refresh_fold_fields aster (check_positions now aster fills rm)).2.1
  · conv_lhs => rw [check_positions, hclosed]
    simp only [List.foldl_nil]
    exact (refresh_fold_fields aster (check_positions now aster fills rm)).2.2.1

/-- Witness for C9: reconciling the one-position ledger against an empty
exchange snapshot closes it once; the second run closes nothing and appends
nothing. -/
theorem c9_check_positions_idempotent_witness :
    (rmOneLong.positions.map Prod.fst).Nodup
      ∧ closed_symbols []
          (check_positions 1 [] (fun _ => some ⟨104, 8⟩) rmOneLong) = []
      ∧ (check_positions 2 [] (fun _ => some ⟨104, 8⟩)
            (check_positions 1 [] (fun _ => some ⟨104, 8⟩) rmOneLong)).trades
          = (check_positions 1 [] (fun _ => some ⟨104, 8⟩) rmOneLong).trades := by
  have hps : rmOneLong.positions = [("BTCUSDT", posBTC)] := by
    norm_num [rmOneLong, rmInit, open_position, can_open_position,
      reset_daily_stats, mkRiskManager, calculate_liquidation_price, lookupPos,
      posBTC]
  have hnodup : (rmOneLong.positions.map Prod.fst).Nodup := by
    rw [hps]; simp
  obtain ⟨h1, h2, _, _⟩ := c9_check_positions_idempotent 1 2 []
    (fun _ => some ⟨104, 8⟩) rmOneLong hnodup
  exact ⟨hnodup, h1, h2⟩

end AstraTrading

